import Mathlib

deriving instance DecidableEq for Except

/-!
A shallow embedding of the async-orchestration module of the radash utility
library (source file with `parallel`, `retry`, `defer`, `all`, `tryit`,
`sleep`, `AggregateError`) together with the array helpers it imports
(`list`, `range`, `sort`, `fork`).

Modelling conventions:

* Thrown or rejected JavaScript values are modelled by an arbitrary type `ε`
  together with a map `tr : ε → Bool` giving the JavaScript truthiness of
  each value.  A variable that may also hold `undefined` is modelled by
  `Option ε`, where `none` is `undefined` (which is falsy).
* A settled promise (or a call of a possibly-throwing function) is modelled
  by `Except ε κ`: `.ok v` for fulfilment with `v`, `.error e` for
  rejection with the value `e` (which may well be falsy).
* Cooperative concurrency: `parallel` pops work items from a shared stack;
  pops are atomic and happen in a fixed global order (always the last
  element), and only the assignment of pops to the `limit` workers depends
  on timing.  A schedule is therefore modelled by a function
  `assign : Nat → Nat` sending the original index of an item to the worker
  that pops it (reduced mod the number of workers).  Every reachable
  interleaving corresponds to such an assignment.
* `retry` and `defer` additionally return instrumentation (the list of
  performed calls and sleeps, resp. the indices of the invoked callbacks)
  so that claims about "exactly n invocations" are statable.
-/

namespace Radash

/-- Truthiness of a possibly-`undefined` value: `undefined` (`none`) is
falsy, and a present value `some e` has the truthiness `tr e`. -/
def truthyOpt (tr : ε → Bool) : Option ε → Bool
  | none => false
  | some e => tr e

/-- Truthiness of a JavaScript number-or-nullish option: `null`/`undefined`
and `0` are falsy.  Used for the `delay` option of `retry`. -/
def truthyNum : Option Nat → Bool
  | none => false
  | some d => d != 0

/-- Embedding of `tryit` applied to a settled operation: returns the
`[err, result]` pair, i.e. `(error-or-undefined, value-or-undefined)`.
Source: `tryit` in the async module (`.then(value => [undefined, value])`,
`.catch(err => [err, undefined])`). -/
def tryit : Except ε κ → Option ε × Option κ
  | .ok v => (none, some v)
  | .error e => (some e, none)

/-- Embedding of the numeric, step-1, identity-mapper instance of the
array helper `range(startOrLength, end)`, which is how the async module
uses it (`list(1, limit)` in `parallel` and `range(1, times)` in `retry`).
Source: `const start = end ? startOrLength : 0`, `const final = end ??
startOrLength`, then `for (let i = start; i <= final; i += step)`.
Note that `end = 0` is falsy, so `range(x, 0)` yields `[0]`. -/
def rangeJS (startOrLength fin : Nat) : List Nat :=
  let start := if fin = 0 then 0 else startOrLength
  List.range' start (fin + 1 - start)

/-- Embedding of the array helper `list`, which materialises `range`.
Source: `Array.from(range(startOrLength, end, valueOrMapper, step))`. -/
def listJS (startOrLength fin : Nat) : List Nat :=
  rangeJS startOrLength fin

/-- Embedding of the array helper `sort(array, getter)` (ascending, not
`desc`): JavaScript `Array.prototype.sort` with the comparator
`(a, b) => getter(a) - getter(b)`, which ECMAScript requires to be a
stable sort.  Modelled by the stable `insertionSort` on the relation
`getter a ≤ getter b`. -/
def sortJS (getter : α → Nat) (l : List α) : List α :=
  List.insertionSort (fun a b => getter a ≤ getter b) l

/-- Embedding of the array helper `fork(list, condition)`: one pass over
the list pushing each item onto the first component when `condition` holds
and onto the second otherwise (the source folds with
`[[...a, item], b]` / `[a, [...b, item]]`). -/
def forkJS (condition : α → Bool) (l : List α) : List α × List α :=
  l.foldl
    (fun acc item =>
      if condition item then (acc.1 ++ [item], acc.2) else (acc.1, acc.2 ++ [item]))
    ([], [])

/-- Embedding of the `AggregateError` class of the async module.  Only the
fields a caller can observe through the claims are kept: the `errors`
array assigned by the constructor (`this.errors = errors`) and the
synthesized `message` (`AggregateError with N errors`).  Each slot of
`errors` is a JavaScript value, possibly `undefined`. -/
structure AggregateError (ε : Type) where
  errors : List (Option ε)
  message : String
deriving DecidableEq

/-- The `AggregateError` constructor. -/
def mkAggregateError (errors : List (Option ε)) : AggregateError ε :=
  { errors := errors
    message := "AggregateError with " ++ toString errors.length ++ " errors" }

/-- Embedding of the `WorkItemResult` record produced by a `parallel`
worker: `{ error, result, index }` with `error` and `result` coming from
`tryit`, so exactly one of them is `undefined` (`none`). -/
structure WorkItemResult (ε κ : Type) where
  index : Nat
  result : Option κ
  error : Option ε
deriving DecidableEq

/-- One worker step of `parallel`: pop the work item `it = {index, item}`,
run `const [error, result] = await tryit(func)(next.item)` and record
`{ error, result, index: next.index }`. -/
def processItem (func : τ → Except ε κ) (it : Nat × τ) : WorkItemResult ε κ :=
  { index := it.1
    result := (tryit (func it.2)).2
    error := (tryit (func it.2)).1 }

/-- Number of workers spawned by `parallel`: the length of `list(1, limit)`
(the source maps `list(1, limit)` to one `Promise(processor)` each).  This
is `limit` when `limit ≥ 1`, and `1` when `limit = 0` because `range(1, 0)`
yields `[0]`. -/
def numWorkers (limit : Nat) : Nat :=
  (listJS 1 limit).length

/-- The results recorded by worker `w` of `parallel` under the schedule
`assign`: the worker processes, in global pop order (the reverse of the
work stack built by `array.map((item, index) => ({index, item}))`), exactly
the items whose pop `assign` hands to it. -/
def workerResults (func : τ → Except ε κ) (work : List (Nat × τ))
    (assign : Nat → Nat) (L w : Nat) : List (WorkItemResult ε κ) :=
  (work.reverse.filter (fun it => assign it.1 % L = w)).map (processItem func)

/-- `itemResults.flat()` of `parallel`: the concatenation, in worker
creation order, of every worker queue settled by `Promise.all(queues)`. -/
def parallelFlat (limit : Nat) (arr : List τ) (func : τ → Except ε κ)
    (assign : Nat → Nat) : List (WorkItemResult ε κ) :=
  let work := arr.enum
  let L := numWorkers limit
  ((List.range L).map (workerResults func work assign L)).flatten

/-- Embedding of `parallel(limit, array, func)` under the schedule
`assign`: sort the flattened worker results by original index, fork them
on `!!x.error`, and either throw `new AggregateError(errors.map(e =>
e.error))` or return `results.map(r => r.result)`. -/
def parallel (tr : ε → Bool) (limit : Nat) (arr : List τ)
    (func : τ → Except ε κ) (assign : Nat → Nat) :
    Except (AggregateError ε) (List (Option κ)) :=
  let itemResults := parallelFlat limit arr func assign
  let forked := forkJS (fun x => truthyOpt tr x.error) (sortJS (fun r => r.index) itemResults)
  if forked.1.length > 0 then
    .error (mkAggregateError (forked.1.map (fun e => e.error)))
  else
    .ok (forked.2.map (fun r => r.result))

/-- Embedding of the (strictly sequential) async `map` of the same module:
await the mapper on each element in input order; the first rejection
propagates and no further element is processed. -/
def mapAsync (func : τ → Except ε κ) : List τ → Except ε (List κ)
  | [] => .ok []
  | x :: rest =>
    match func x with
    | .error e => .error e
    | .ok v =>
      match mapAsync func rest with
      | .error e => .error e
      | .ok vs => .ok (v :: vs)

/-- The record built by `all` for each settled entry:
`{ result, exc, key }` from `.then(result => ({result, exc: null, key}))`
and `.catch(exc => ({result: null, exc, key}))`. -/
structure SettledResult (ε κ : Type) where
  result : Option κ
  exc : Option ε
  key : Option String
deriving DecidableEq

/-- Settling one entry of `all`. -/
def settleEntry (key : Option String) : Except ε κ → SettledResult ε κ
  | .ok v => { result := some v, exc := none, key := key }
  | .error e => { result := none, exc := some e, key := key }

/-- Embedding of the array branch of `all`: entries are `[null, p]` pairs,
every promise is awaited, entries with a truthy `exc` are collected, and
either `new AggregateError(exceptions.map(e => e.exc))` is thrown or
`results.map(r => r.result)` is returned. -/
def allList (tr : ε → Bool) (promises : List (Except ε κ)) :
    Except (AggregateError ε) (List (Option κ)) :=
  let results := promises.map (settleEntry none)
  let exceptions := results.filter (fun r => truthyOpt tr r.exc)
  if exceptions.length > 0 then
    .error (mkAggregateError (exceptions.map (fun e => e.exc)))
  else
    .ok (results.map (fun r => r.result))

/-- Embedding of the object branch of `all`: entries are
`Object.entries(promises)` (insertion order, unique keys), and on success
the result object is rebuilt by the `reduce` with `[item.key!]:
item.result`, which keeps the entries order.  Modelled on association
lists. -/
def allRecord (tr : ε → Bool) (promises : List (String × Except ε κ)) :
    Except (AggregateError ε) (List (String × Option κ)) :=
  let results := promises.map (fun kv => settleEntry (some kv.1) kv.2)
  let exceptions := results.filter (fun r => truthyOpt tr r.exc)
  if exceptions.length > 0 then
    .error (mkAggregateError (exceptions.map (fun e => e.exc)))
  else
    .ok (results.map (fun r => (r.key.getD "", r.result)))

/-- What one invocation of the operation given to `retry` does.  `thrown e`
is an ordinary `throw e` / rejection with `e`; `exited e` is a call of the
provided `exit` capability with `e`, which the source turns into
`throw { _exited: e }`.  Ordinary thrown values are modelled as not having
an `_exited` property (reading it yields `undefined`). -/
inductive RetryOutcome (ε κ : Type) where
  | ok (v : κ)
  | thrown (e : ε)
  | exited (e : ε)
deriving DecidableEq

/-- Instrumentation events of a `retry` run: `call i` is the `i`-th
invocation of the operation, `slept ms` an `await sleep(ms)`. -/
inductive REvent where
  | call (i : Nat)
  | slept (ms : Nat)
deriving DecidableEq

/-- A value raised by `retry`: `plain e` raises the JavaScript value `e`
itself (ordinary failure at budget exhaustion, or `throw err._exited`);
`wrapper e` raises the sentinel object `{ _exited: e }` itself, which
happens when `exit` was called with a falsy argument and the budget ran
out. -/
inductive RetryRaise (ε : Type) where
  | plain (e : ε)
  | wrapper (e : ε)
deriving DecidableEq

/-- The options record of `retry`: `times?: number`,
`delay?: number | null`, `backoff?: (count: number) => number`. -/
structure RetryOptions where
  times : Option Nat := none
  delay : Option Nat := none
  backoff : Option (Nat → Nat) := none

/-- The sleep performed by `if (delay) await sleep(delay)`. -/
def delaySleeps (delay : Option Nat) : List REvent :=
  if truthyNum delay then [.slept (delay.getD 0)] else []

/-- The sleep performed by `if (backoff) await sleep(backoff(i))`
(`backoff` is `options?.backoff ?? null`, truthy exactly when supplied). -/
def backoffSleeps (backoff : Option (Nat → Nat)) (i : Nat) : List REvent :=
  match backoff with
  | some b => [.slept (b i)]
  | none => []

/-- The body of the `for (const i of range(1, times))` loop of `retry`,
over the remaining attempt numbers.  Per attempt: run the operation via
`tryit`; `if (!err) return result`; `if (err._exited) throw err._exited`;
`if (i === times) throw err`; `if (delay) await sleep(delay)`;
`if (backoff) await sleep(backoff(i))`.  The fall-through after the loop
is `return undefined`.  Returns the event trace and the outcome. -/
def retryLoop (tr : ε → Bool) (times : Nat) (delay : Option Nat)
    (backoff : Option (Nat → Nat)) (func : Nat → RetryOutcome ε κ) :
    List Nat → List REvent × Except (RetryRaise ε) (Option κ)
  | [] => ([], .ok none)
  | i :: rest =>
    match func i with
    | .ok v => ([.call i], .ok (some v))
    | .thrown e =>
      if tr e then
        if i = times then ([.call i], .error (.plain e))
        else
          let next := retryLoop tr times delay backoff func rest
          (.call i :: (delaySleeps delay ++ backoffSleeps backoff i ++ next.1), next.2)
      else ([.call i], .ok none)
    | .exited e =>
      if tr e then ([.call i], .error (.plain e))
      else if i = times then ([.call i], .error (.wrapper e))
      else
        let next := retryLoop tr times delay backoff func rest
        (.call i :: (delaySleeps delay ++ backoffSleeps backoff i ++ next.1), next.2)

/-- Embedding of `retry(options, func)`: `times = options?.times ?? 3`,
then the attempt loop over `range(1, times)`.  The operation is modelled
by the outcome of each numbered invocation. -/
def retry (tr : ε → Bool) (options : RetryOptions)
    (func : Nat → RetryOutcome ε κ) :
    List REvent × Except (RetryRaise ε) (Option κ) :=
  let times := options.times.getD 3
  retryLoop tr times options.delay options.backoff func (rangeJS 1 times)

/-- The invocation numbers occurring in a `retry` event trace, in order. -/
def callsOf (t : List REvent) : List Nat :=
  t.filterMap (fun ev => match ev with | .call i => some i | .slept _ => none)

/-- What one registered `defer` callback does when invoked with the body
error: either return normally (`ok`, any return value is discarded) or
throw the value `e`. -/
inductive CbRes (ε : Type) where
  | ok
  | threw (e : ε)

/-- A callback registered during the `defer` body, in registration order:
the guarded function together with the resolved
`options?.rethrow ?? false` flag. -/
structure DeferCallback (ε : Type) where
  fn : Option ε → CbRes ε
  rethrow : Bool

/-- Whether a callback makes the `defer` loop throw: its invocation threw
a truthy value and it was registered with `rethrow: true` (the source
check `if (rethrown && rethrow) throw rethrown`). -/
def cbBad (tr : ε → Bool) (err : Option ε) (cb : DeferCallback ε) : Bool :=
  match cb.fn err with
  | .ok => false
  | .threw e => tr e && cb.rethrow

/-- The callback loop of `defer`: `for (const { fn, rethrow } of
callbacks) { const [rethrown] = await tryit(fn)(err); if (rethrown &&
rethrow) throw rethrown }`.  Returns the zero-based indices of the
callbacks that were invoked, in order, and the thrown value if the loop
threw. -/
def deferLoop (tr : ε → Bool) (err : Option ε) :
    List (DeferCallback ε) → List Nat × Option ε
  | [] => ([], none)
  | cb :: rest =>
    match cb.fn err with
    | .ok =>
      let next := deferLoop tr err rest
      (0 :: next.1.map (· + 1), next.2)
    | .threw e =>
      if tr e && cb.rethrow then ([0], some e)
      else
        let next := deferLoop tr err rest
        (0 :: next.1.map (· + 1), next.2)

/-- Embedding of `defer(func)` after the body has settled:
`const [err, response] = await tryit(func)(register)` gives the pair
`(err, response)`, `callbacks` is the registration list; then the callback
loop runs, and finally `if (err) throw err; return response`.  Returns the
invoked callback indices and the outcome (`.error` is a raised value,
always truthy). -/
def defer (tr : ε → Bool) (callbacks : List (DeferCallback ε))
    (err : Option ε) (response : Option κ) : List Nat × Except ε (Option κ) :=
  let run := deferLoop tr err callbacks
  match run.2 with
  | some e => (run.1, .error e)
  | none =>
    match err with
    | some e => if tr e then (run.1, .error e) else (run.1, .ok response)
    | none => (run.1, .ok response)

/-! ### Concrete instances used by witnesses and counterexamples -/

/-- Concrete truthiness on natural numbers: `0` is the only falsy value,
playing the role of `undefined`, `null`, `false`, `0` or an empty string;
every nonzero value is truthy (e.g. an `Error` object). -/
def trNat : Nat → Bool := fun n => n != 0

/-- An operation that calls `exit(9)` on every attempt. -/
def exitNineF : Nat → RetryOutcome Nat Nat := fun _ => .exited 9

/-- An operation that calls `exit` with the falsy value `0` (i.e.
`exit(undefined)` or `exit(0)`) on every attempt. -/
def exitZeroF : Nat → RetryOutcome Nat Nat := fun _ => .exited 0

/-- An operation that throws the truthy value `7` on every attempt. -/
def throwSevenF : Nat → RetryOutcome Nat Nat := fun _ => .thrown 7

/-- An operation that throws a falsy value (`undefined`, modelled `0`) on
every attempt. -/
def throwZeroF : Nat → RetryOutcome Nat Nat := fun _ => .thrown 0

/-- An operation that throws the truthy value `1` on every attempt. -/
def throwOneF : Nat → RetryOutcome Nat Nat := fun _ => .thrown 1

/-- A deferred callback registered with `rethrow: true` whose invocation
throws the truthy value `1`. -/
def cbThrowOneRethrow : DeferCallback Nat :=
  { fn := fun _ => .threw 1, rethrow := true }

/-- A deferred callback registered with `rethrow: true` whose invocation
throws a falsy value (`undefined`, modelled `0`). -/
def cbThrowZeroRethrow : DeferCallback Nat :=
  { fn := fun _ => .threw 0, rethrow := true }

/-- A deferred callback that returns normally. -/
def cbOk : DeferCallback Nat :=
  { fn := fun _ => .ok, rethrow := false }

/-- A worker that fulfils with twice its input. -/
def dblF : Nat → Except Nat Nat := fun x => .ok (x * 2)

/-- A worker that rejects odd inputs with the truthy value `10·x` and
fulfils even inputs. -/
def parOddFail : Nat → Except Nat Nat :=
  fun x => if x % 2 = 1 then .error (10 * x) else .ok x

/-- A worker that rejects every input with the truthy value `1`. -/
def failOneF : Nat → Except Nat Nat := fun _ => .error 1

/-- The outcome of a `parallel` call with its raised JavaScript value
embedded into a common type of raised values, so that it can be compared
with the outcome of a sequential `map`: an `AggregateError` object
(`Sum.inl`) is a different JavaScript value from any bare rejection value
(`Sum.inr`). -/
def parallelOutcome (o : Except (AggregateError ε) (List (Option κ))) :
    Except (AggregateError ε ⊕ ε) (List (Option κ)) :=
  match o with
  | .ok v => .ok v
  | .error a => .error (.inl a)

/-- The outcome of a strictly sequential `map` embedded into the same
common type as `parallelOutcome`: values are present (`some`), a
rejection is a bare value (`Sum.inr`). -/
def seqMapOutcome (o : Except ε (List κ)) :
    Except (AggregateError ε ⊕ ε) (List (Option κ)) :=
  match o with
  | .ok vs => .ok (vs.map some)
  | .error e => .error (.inr e)

/-! ### Helper lemmas about the array utilities -/

lemma forkJS_foldl (condition : α → Bool) (l : List α) (a b : List α) :
    l.foldl
      (fun acc item =>
        if condition item then (acc.1 ++ [item], acc.2) else (acc.1, acc.2 ++ [item]))
      (a, b) =
      (a ++ l.filter condition, b ++ l.filter (fun x => !condition x)) := by
  induction l generalizing a b with
  | nil => simp
  | cons x t ih =>
    by_cases h : condition x <;> simp [List.filter_cons, h, ih]

lemma forkJS_eq (condition : α → Bool) (l : List α) :
    forkJS condition l = (l.filter condition, l.filter (fun x => !condition x)) := by
  simpa using forkJS_foldl condition l [] []

lemma filter_or_perm (p q : α → Bool) :
    ∀ l : List α, (∀ x ∈ l, p x = true → q x = false) →
      (l.filter p ++ l.filter q).Perm (l.filter (fun x => p x || q x))
  | [], _ => by simp
  | x :: t, h => by
    have ht : ∀ y ∈ t, p y = true → q y = false := fun y hy => h y (List.mem_cons_of_mem x hy)
    cases hp : p x <;> cases hq : q x
    · simpa [List.filter_cons, hp, hq] using filter_or_perm p q t ht
    · simpa [List.filter_cons, hp, hq] using
        List.perm_middle.trans ((filter_or_perm p q t ht).cons x)
    · simpa [List.filter_cons, hp, hq] using (filter_or_perm p q t ht).cons x
    · exact absurd (h x (List.mem_cons_self x t) hp) (by simp [hq])

lemma flatten_filter_mem_perm (g : α → Nat) (l : List α) :
    ∀ W : List Nat, W.Nodup →
      ((W.map (fun w => l.filter (fun x => decide (g x = w)))).flatten).Perm
        (l.filter (fun x => decide (g x ∈ W)))
  | [], _ => by simp
  | w :: W, hnd => by
    have ih := flatten_filter_mem_perm g l W hnd.of_cons
    have hw : w ∉ W := by
      have := List.nodup_cons.1 hnd
      exact this.1
    have hdisj : ∀ x ∈ l, decide (g x = w) = true → decide (g x ∈ W) = false := by
      intro x _ hx
      have hgx : g x = w := by simpa using hx
      simp [hgx, hw]
    have h2 := filter_or_perm (fun x => decide (g x = w)) (fun x => decide (g x ∈ W)) l hdisj
    have hcongr :
        l.filter (fun x => decide (g x = w) || decide (g x ∈ W)) =
          l.filter (fun x => decide (g x ∈ w :: W)) := by
      apply List.filter_congr
      intro x _
      by_cases hx : g x = w <;> simp [hx]
    simp only [List.map_cons, List.flatten_cons]
    rw [← hcongr]
    exact (ih.append_left (l.filter fun x => decide (g x = w))).trans h2

/-! ### The main schedule-independence lemma for `parallel` -/

lemma numWorkers_pos (limit : Nat) : 0 < numWorkers limit := by
  unfold numWorkers listJS rangeJS
  cases limit with
  | zero => simp [List.length_range']
  | succ n => simp [List.length_range']

lemma parallelFlat_perm (limit : Nat) (arr : List τ) (func : τ → Except ε κ)
    (assign : Nat → Nat) :
    (parallelFlat limit arr func assign).Perm (arr.enum.map (processItem func)) := by
  unfold parallelFlat workerResults
  set L := numWorkers limit with hL
  have hLpos : 0 < L := numWorkers_pos limit
  set popped := arr.enum.reverse with hpop
  have hmaps :
      ((List.range L).map
          (fun w => (popped.filter (fun it => assign it.1 % L = w)).map (processItem func))).flatten =
        (((List.range L).map
          (fun w => popped.filter (fun it => assign it.1 % L = w))).flatten).map (processItem func) := by
    rw [List.map_flatten, List.map_map]
    rfl
  rw [hmaps]
  have hperm :
      (((List.range L).map
        (fun w => popped.filter (fun it => assign it.1 % L = w))).flatten).Perm popped := by
    have hbuckets := flatten_filter_mem_perm (fun it : Nat × τ => assign it.1 % L) popped
      (List.range L) (List.nodup_range L)
    have hmem : popped.filter (fun it => decide (assign it.1 % L ∈ List.range L)) = popped := by
      have : ∀ it ∈ popped, (decide (assign it.1 % L ∈ List.range L)) = (fun _ => true) it := by
        intro it _
        simp [List.mem_range, Nat.mod_lt _ hLpos]
      rw [List.filter_congr this, List.filter_true]
    rw [hmem] at hbuckets
    exact hbuckets
  exact (hperm.map (processItem func)).trans
    (by rw [hpop, List.map_reverse]; exact (arr.enum.map (processItem func)).reverse_perm)

lemma canonical_pairwise (arr : List τ) (func : τ → Except ε κ) :
    (arr.enum.map (processItem func)).Pairwise (fun a b => a.index ≤ b.index) := by
  have h0 : (List.range arr.length).Pairwise (fun a b => a < b) := List.pairwise_lt_range _
  rw [← List.enum_map_fst, List.pairwise_map] at h0
  rw [List.pairwise_map]
  exact h0.imp (fun h => Nat.le_of_lt h)

lemma canonical_nodup_keys (arr : List τ) (func : τ → Except ε κ) :
    ((arr.enum.map (processItem func)).map (fun r => r.index)).Nodup := by
  rw [List.map_map]
  have : ((fun r : WorkItemResult ε κ => r.index) ∘ processItem func) = Prod.fst := rfl
  rw [this, List.enum_map_fst]
  exact List.nodup_range _

lemma eq_of_perm_of_sorted_nodup (key : β → Nat) :
    ∀ l₁ l₂ : List β, l₁.Perm l₂ →
      l₁.Pairwise (fun a b => key a ≤ key b) → l₂.Pairwise (fun a b => key a ≤ key b) →
      (l₂.map key).Nodup → l₁ = l₂
  | [], l₂, hp, _, _, _ => (hp.nil_eq).symm ▸ rfl
  | a :: t₁, [], hp, _, _, _ => absurd hp.symm.nil_eq (by simp)
  | a :: t₁, b :: t₂, hp, hs₁, hs₂, hnd => by
    have hab : a = b := by
      by_contra hne
      have ha2 : a ∈ t₂ := by
        have := hp.subset (List.mem_cons_self a t₁)
        rcases List.mem_cons.1 this with h | h
        · exact absurd h hne
        · exact h
      have hb1 : b ∈ t₁ := by
        have := hp.symm.subset (List.mem_cons_self b t₂)
        rcases List.mem_cons.1 this with h | h
        · exact absurd h.symm hne
        · exact h
      have h1 : key a ≤ key b := List.rel_of_pairwise_cons hs₁ hb1
      have h2 : key b ≤ key a := List.rel_of_pairwise_cons hs₂ ha2
      have hkey : key b = key a := Nat.le_antisymm h2 h1
      have : key b ∈ t₂.map key := hkey ▸ List.mem_map_of_mem key ha2
      exact (List.nodup_cons.1 (by simpa using hnd)).1 this
    subst hab
    have ht := eq_of_perm_of_sorted_nodup key t₁ t₂ (hp.cons_inv)
      (List.Pairwise.of_cons hs₁) (List.Pairwise.of_cons hs₂)
      ((List.nodup_cons.1 (by simpa using hnd)).2)
    rw [ht]

lemma parallel_sorted (limit : Nat) (arr : List τ) (func : τ → Except ε κ)
    (assign : Nat → Nat) :
    sortJS (fun r => r.index) (parallelFlat limit arr func assign) =
      arr.enum.map (processItem func) := by
  unfold sortJS
  set r : WorkItemResult ε κ → WorkItemResult ε κ → Prop := fun a b => a.index ≤ b.index with hr
  haveI : IsTotal (WorkItemResult ε κ) r := ⟨fun a b => Nat.le_total a.index b.index⟩
  haveI : IsTrans (WorkItemResult ε κ) r := ⟨fun _ _ _ h1 h2 => Nat.le_trans h1 h2⟩
  apply eq_of_perm_of_sorted_nodup (fun x => x.index)
  · exact (List.perm_insertionSort r _).trans (parallelFlat_perm limit arr func assign)
  · exact List.sorted_insertionSort r _
  · exact canonical_pairwise arr func
  · exact canonical_nodup_keys arr func

lemma enum_map_snd_fun (g : τ → β) (arr : List τ) :
    arr.enum.map (fun p => g p.2) = arr.map g := by
  have h : (fun p : Nat × τ => g p.2) = g ∘ Prod.snd := rfl
  rw [h, ← List.map_map, List.enum_map_snd]

lemma enum_filter_snd (h : τ → Bool) (g : τ → β) (arr : List τ) :
    (arr.enum.filter (fun p => h p.2)).map (fun p => g p.2) = (arr.filter h).map g := by
  conv_rhs => rw [← List.enum_map_snd arr]
  rw [List.filter_map, List.map_map]
  rfl

lemma enum_filter_snd_length (h : τ → Bool) (arr : List τ) :
    (arr.enum.filter (fun p => h p.2)).length = (arr.filter h).length := by
  have hlen := congrArg List.length (enum_filter_snd h (fun a : τ => a) arr)
  simpa using hlen

/-- Under every schedule and every concurrency limit, `parallel` is
equivalent to deciding everything from the per-item settled outcomes in
original input order: if some item has a truthy error, throw an
`AggregateError` holding exactly the truthy errors in index order,
otherwise return the per-item `result` slots in input order. -/
lemma parallel_eq_spec (tr : ε → Bool) (limit : Nat) (arr : List τ)
    (func : τ → Except ε κ) (assign : Nat → Nat) :
    parallel tr limit arr func assign =
      if 0 < (arr.filter (fun a => truthyOpt tr (tryit (func a)).1)).length then
        .error (mkAggregateError
          ((arr.filter (fun a => truthyOpt tr (tryit (func a)).1)).map
            (fun a => (tryit (func a)).1)))
      else .ok (arr.map (fun a => (tryit (func a)).2)) := by
  simp only [parallel]
  rw [parallel_sorted, forkJS_eq]
  have hfil :
      (arr.enum.map (processItem func)).filter (fun x => truthyOpt tr x.error) =
        (arr.enum.filter (fun pr => truthyOpt tr (tryit (func pr.2)).1)).map
          (processItem func) := by
    rw [List.filter_map]
    rfl
  have hcomp : ((fun e : WorkItemResult ε κ => e.error) ∘ processItem func) =
      (fun pr : Nat × τ => (tryit (func pr.2)).1) := rfl
  rw [hfil, List.map_map, List.length_map, hcomp,
    enum_filter_snd (fun a => truthyOpt tr (tryit (func a)).1)
      (fun a => (tryit (func a)).1) arr,
    enum_filter_snd_length (fun a => truthyOpt tr (tryit (func a)).1) arr]
  by_cases hc : 0 < (arr.filter (fun a => truthyOpt tr (tryit (func a)).1)).length
  · rw [if_pos hc, if_pos hc]
  · rw [if_neg hc, if_neg hc]
    have hempty : arr.enum.filter (fun pr => truthyOpt tr (tryit (func pr.2)).1) = [] := by
      have h0 : (arr.filter (fun a => truthyOpt tr (tryit (func a)).1)).length = 0 := by
        omega
      have harr := List.length_eq_zero.1 h0
      have := enum_filter_snd_length (fun a => truthyOpt tr (tryit (func a)).1) arr
      rw [h0] at this
      exact List.length_eq_zero.1 this
    have hnone : ∀ x ∈ arr.enum.map (processItem func), truthyOpt tr x.error = false := by
      intro x hx
      rcases List.mem_map.1 hx with ⟨pr, hpr, rfl⟩
      have := List.filter_eq_nil_iff.1 hempty pr hpr
      simpa [processItem] using this
    have hall :
        (arr.enum.map (processItem func)).filter (fun x => !truthyOpt tr x.error) =
          arr.enum.map (processItem func) := by
      have hcg : ∀ x ∈ arr.enum.map (processItem func),
          (!truthyOpt tr x.error) = (fun _ => true) x := by
        intro x hx
        simp [hnone x hx]
      rw [List.filter_congr hcg, List.filter_true]
    rw [hall, List.map_map]
    have hres : ((fun r : WorkItemResult ε κ => r.result) ∘ processItem func) =
        (fun pr : Nat × τ => (tryit (func pr.2)).2) := rfl
    rw [hres, enum_map_snd_fun (fun a => (tryit (func a)).2) arr]

/-! ### Helper lemmas about `retry` -/

lemma callsOf_append (s t : List REvent) : callsOf (s ++ t) = callsOf s ++ callsOf t :=
  List.filterMap_append s t _

lemma callsOf_delaySleeps (d : Option Nat) : callsOf (delaySleeps d) = [] := by
  unfold delaySleeps
  split <;> simp [callsOf]

lemma callsOf_backoffSleeps (b : Option (Nat → Nat)) (i : Nat) :
    callsOf (backoffSleeps b i) = [] := by
  cases b <;> simp [backoffSleeps, callsOf]

lemma callsOf_cons_call (i : Nat) (t : List REvent) :
    callsOf (.call i :: t) = i :: callsOf t := by
  simp [callsOf]

lemma callsOf_segments (delay : Option Nat) (backoff : Option (Nat → Nat)) :
    ∀ l : List Nat,
      callsOf ((l.map
        (fun i => REvent.call i :: (delaySleeps delay ++ backoffSleeps backoff i))).flatten) = l
  | [] => by simp [callsOf]
  | i :: l => by
    simp only [List.map_cons, List.flatten_cons]
    rw [callsOf_append, callsOf_cons_call, callsOf_append, callsOf_delaySleeps,
      callsOf_backoffSleeps, callsOf_segments delay backoff l]
    simp

lemma rangeJS_one (times : Nat) (h : 1 ≤ times) : rangeJS 1 times = List.range' 1 times := by
  unfold rangeJS
  rw [if_neg (by omega)]
  show List.range' 1 (times + 1 - 1) = List.range' 1 times
  have ht : times + 1 - 1 = times := by omega
  rw [ht]

lemma range'_split (j t : Nat) (h1 : 1 ≤ j) (h2 : j ≤ t) :
    List.range' 1 t = List.range' 1 (j - 1) ++ List.range' j (t + 1 - j) := by
  have := List.range'_append 1 (j - 1) (t + 1 - j) 1
  have hj : 1 + 1 * (j - 1) = j := by omega
  have ht : t + 1 - j + (j - 1) = t := by omega
  rw [hj, ht] at this
  exact this.symm

/-- If every attempt number in `l₁` is below the budget and its invocation
throws a truthy value, the attempt loop marches through `l₁` performing
one call and the configured sleeps per attempt, and continues with the
remaining attempts. -/
lemma retryLoop_reach (tr : ε → Bool) (times : Nat) (delay : Option Nat)
    (backoff : Option (Nat → Nat)) (func : Nat → RetryOutcome ε κ) :
    ∀ l₁ rest : List Nat,
      (∀ i ∈ l₁, i ≠ times ∧ ∃ e, func i = .thrown e ∧ tr e = true) →
      retryLoop tr times delay backoff func (l₁ ++ rest) =
        ((l₁.map
            (fun i => REvent.call i :: (delaySleeps delay ++ backoffSleeps backoff i))).flatten
            ++ (retryLoop tr times delay backoff func rest).1,
          (retryLoop tr times delay backoff func rest).2)
  | [], rest, _ => by simp
  | i :: l₁, rest, h => by
    obtain ⟨hne, e, hfe, htr⟩ := h i (List.mem_cons_self i l₁)
    have ih := retryLoop_reach tr times delay backoff func l₁ rest
      (fun j hj => h j (List.mem_cons_of_mem i hj))
    simp only [List.cons_append, retryLoop, hfe, htr, if_true, if_neg hne,
      List.map_cons, List.flatten_cons]
    simp [ih, List.append_assoc]

lemma retry_reach (tr : ε → Bool) (options : RetryOptions)
    (func : Nat → RetryOutcome ε κ) (j : Nat) (hj1 : 1 ≤ j)
    (hj2 : j ≤ options.times.getD 3)
    (hpre : ∀ i, 1 ≤ i → i < j → ∃ e, func i = .thrown e ∧ tr e = true) :
    retry tr options func =
      (((List.range' 1 (j - 1)).map
          (fun i => REvent.call i :: (delaySleeps options.delay ++ backoffSleeps options.backoff i))).flatten
          ++ (retryLoop tr (options.times.getD 3) options.delay options.backoff func
              (List.range' j (options.times.getD 3 + 1 - j))).1,
        (retryLoop tr (options.times.getD 3) options.delay options.backoff func
            (List.range' j (options.times.getD 3 + 1 - j))).2) := by
  simp only [retry]
  rw [rangeJS_one _ (le_trans hj1 hj2), range'_split j _ hj1 hj2]
  apply retryLoop_reach
  intro i hi
  rcases List.mem_range'.1 hi with ⟨k, hk, rfl⟩
  have hik : 1 + 1 * k < j := by omega
  refine ⟨by omega, ?_⟩
  exact hpre _ (by omega) hik

lemma retryLoop_singleton_fst (tr : ε → Bool) (times : Nat) (delay : Option Nat)
    (backoff : Option (Nat → Nat)) (func : Nat → RetryOutcome ε κ) :
    (retryLoop tr times delay backoff func [times]).1 = [.call times] := by
  cases hfe : func times with
  | ok v => simp [retryLoop, hfe]
  | thrown e => by_cases htr : tr e = true <;> simp [retryLoop, hfe, htr]
  | exited e => by_cases htr : tr e = true <;> simp [retryLoop, hfe, htr]

lemma range'_snoc (j : Nat) (h : 1 ≤ j) :
    List.range' 1 (j - 1) ++ [j] = List.range' 1 j := by
  have h2 := List.range'_append 1 (j - 1) 1 1
  have hj : 1 + 1 * (j - 1) = j := by omega
  have hs : 1 + (j - 1) = j := by omega
  rw [hj, List.range'_one, hs] at h2
  exact h2


/-! ### Claim theorems about `retry` -/

/-- C4 (amended: the argument given to `exit` must be truthy).  If the
loop reaches attempt `j` (every earlier attempt threw a truthy value) and
the operation calls `exit(e)` there with a truthy `e`, then `retry` raises
`e` itself — not wrapped and not retried — immediately: the run ends with
`.error (.plain e)` after exactly the invocations `1, …, j`, regardless of
how many attempts remain in the budget. -/
theorem retry_exit_truthy_immediate (tr : ε → Bool) (options : RetryOptions)
    (func : Nat → RetryOutcome ε κ) (j : Nat) (e : ε) (hj1 : 1 ≤ j)
    (hj2 : j ≤ options.times.getD 3)
    (hpre : ∀ i, 1 ≤ i → i < j → ∃ ei, func i = .thrown ei ∧ tr ei = true)
    (hexit : func j = .exited e) (htr : tr e = true) :
    (retry tr options func).2 = .error (.plain e) ∧
      callsOf (retry tr options func).1 = List.range' 1 j := by
  have hreach := retry_reach tr options func j hj1 hj2 hpre
  have hrest : List.range' j (options.times.getD 3 + 1 - j) =
      j :: List.range' (j + 1) (options.times.getD 3 - j) := by
    have hn : options.times.getD 3 + 1 - j = (options.times.getD 3 - j) + 1 := by omega
    rw [hn, List.range'_succ]
  rw [hrest] at hreach
  have hstep : retryLoop tr (options.times.getD 3) options.delay options.backoff func
      (j :: List.range' (j + 1) (options.times.getD 3 - j)) =
        ([.call j], .error (.plain e)) := by
    simp [retryLoop, hexit, htr]
  rw [hstep] at hreach
  rw [hreach]
  refine ⟨rfl, ?_⟩
  rw [callsOf_append, callsOf_segments, callsOf_cons_call]
  have hnil : callsOf ([] : List REvent) = [] := rfl
  rw [hnil]
  exact range'_snoc j hj1

/-- C4 witness: an operation that calls `exit(9)` on attempt 1 with
`times = 5` makes `retry` raise the value 9 itself after a single
invocation. -/
theorem retry_exit_truthy_immediate_witness :
    (retry trNat { times := some 5 } exitNineF).2 = .error (.plain 9) ∧
      callsOf (retry trNat { times := some 5 } exitNineF).1 = List.range' 1 1 :=
  retry_exit_truthy_immediate trNat { times := some 5 } exitNineF 1 9 (by decide)
    (by decide) (fun i h1 h2 => absurd h2 (by omega)) rfl rfl

/-- C4 counterexample: with `times = 2` and an operation that calls
`exit` with a falsy argument (modelled by `0`) on every attempt, `retry`
does neither raise that argument itself nor stop after the first attempt:
it retries and finally raises the sentinel wrapper object
`{ _exited: 0 }` after two invocations. -/
theorem retry_exit_falsy_cex :
    (retry trNat { times := some 2 } exitZeroF).2 = .error (.wrapper 0) ∧
      callsOf (retry trNat { times := some 2 } exitZeroF).1 = [1, 2] ∧
      ¬((retry trNat { times := some 2 } exitZeroF).2 = .error (.plain 0) ∧
        callsOf (retry trNat { times := some 2 } exitZeroF).1 = [1]) := by
  decide

/-- C5 (amended: the per-attempt failures must be truthy values).  With a
budget of `times = options?.times ?? 3` (at least 1) and an operation that
throws a truthy value on every attempt, `retry` performs exactly the
invocations `1, …, times` and then raises the last attempt failure
verbatim. -/
theorem retry_exhausts_times_truthy (tr : ε → Bool) (options : RetryOptions)
    (func : Nat → RetryOutcome ε κ) (elast : ε)
    (ht : 1 ≤ options.times.getD 3)
    (hfail : ∀ i, 1 ≤ i → i < options.times.getD 3 →
      ∃ e, func i = .thrown e ∧ tr e = true)
    (hlast : func (options.times.getD 3) = .thrown elast)
    (htr : tr elast = true) :
    (retry tr options func).2 = .error (.plain elast) ∧
      callsOf (retry tr options func).1 = List.range' 1 (options.times.getD 3) := by
  have hreach := retry_reach tr options func (options.times.getD 3) ht (le_refl _) hfail
  have hrest : List.range' (options.times.getD 3)
      (options.times.getD 3 + 1 - options.times.getD 3) = [options.times.getD 3] := by
    have hn : options.times.getD 3 + 1 - options.times.getD 3 = 1 := by omega
    rw [hn, List.range'_one]
  rw [hrest] at hreach
  have hstep : retryLoop tr (options.times.getD 3) options.delay options.backoff func
      [options.times.getD 3] = ([.call (options.times.getD 3)], .error (.plain elast)) := by
    simp [retryLoop, hlast, htr]
  rw [hstep] at hreach
  rw [hreach]
  refine ⟨rfl, ?_⟩
  rw [callsOf_append, callsOf_segments, callsOf_cons_call]
  have hnil : callsOf ([] : List REvent) = [] := rfl
  rw [hnil]
  exact range'_snoc _ ht

/-- C5 witness: `times = 3` and an operation that always throws the
truthy value 7: `retry` raises 7 after exactly the three invocations
1, 2, 3. -/
theorem retry_exhausts_times_truthy_witness :
    (retry trNat { times := some 3 } throwSevenF).2 = .error (.plain 7) ∧
      callsOf (retry trNat { times := some 3 } throwSevenF).1 = List.range' 1 3 :=
  retry_exhausts_times_truthy trNat { times := some 3 } throwSevenF 7 (by decide)
    (fun i h1 h2 => ⟨7, rfl, rfl⟩) rfl rfl

/-- C5 counterexample: `times = 3` and an operation that always fails
with a falsy value (`undefined`, modelled by `0`): `retry` does not make
three attempts and does not raise; it stops after one invocation and
returns `undefined`. -/
theorem retry_falsy_failure_cex :
    (retry trNat { times := some 3 } throwZeroF).2 = .ok none ∧
      callsOf (retry trNat { times := some 3 } throwZeroF).1 = [1] ∧
      ¬(callsOf (retry trNat { times := some 3 } throwZeroF).1 = [1, 2, 3] ∧
        (retry trNat { times := some 3 } throwZeroF).2 = .error (.plain 0)) := by
  decide

/-- C10: a `retry` attempt that fails by throwing a falsy value is
treated as a success: if the loop reaches attempt `j` (every earlier
attempt threw a truthy value) and attempt `j` throws a value `e` with
`tr e = false`, `retry` immediately returns `undefined` (`.ok none`)
after exactly the invocations `1, …, j` — it neither retries nor raises,
and the falsy thrown value is discarded. -/
theorem retry_falsy_error_returns_undefined (tr : ε → Bool) (options : RetryOptions)
    (func : Nat → RetryOutcome ε κ) (j : Nat) (e : ε) (hj1 : 1 ≤ j)
    (hj2 : j ≤ options.times.getD 3)
    (hpre : ∀ i, 1 ≤ i → i < j → ∃ ei, func i = .thrown ei ∧ tr ei = true)
    (hthrow : func j = .thrown e) (hfalsy : tr e = false) :
    (retry tr options func).2 = .ok none ∧
      callsOf (retry tr options func).1 = List.range' 1 j := by
  have hreach := retry_reach tr options func j hj1 hj2 hpre
  have hrest : List.range' j (options.times.getD 3 + 1 - j) =
      j :: List.range' (j + 1) (options.times.getD 3 - j) := by
    have hn : options.times.getD 3 + 1 - j = (options.times.getD 3 - j) + 1 := by omega
    rw [hn, List.range'_succ]
  rw [hrest] at hreach
  have hstep : retryLoop tr (options.times.getD 3) options.delay options.backoff func
      (j :: List.range' (j + 1) (options.times.getD 3 - j)) = ([.call j], .ok none) := by
    simp [retryLoop, hthrow, hfalsy]
  rw [hstep] at hreach
  rw [hreach]
  refine ⟨rfl, ?_⟩
  rw [callsOf_append, callsOf_segments, callsOf_cons_call]
  have hnil : callsOf ([] : List REvent) = [] := rfl
  rw [hnil]
  exact range'_snoc j hj1

/-- C10 witness: with the default budget (3) and an operation that throws
the falsy value `0`, `retry` returns `undefined` after one invocation. -/
theorem retry_falsy_error_returns_undefined_witness :
    (retry trNat { } throwZeroF).2 = .ok none ∧
      callsOf (retry trNat { } throwZeroF).1 = List.range' 1 1 :=
  retry_falsy_error_returns_undefined trNat { } throwZeroF 1 0 (by decide) (by decide)
    (fun i h1 h2 => absurd h2 (by omega)) rfl rfl

/-- C7 (amended: the supplied `delay` must be nonzero, hence truthy).
When `delay = some d` with `d ≠ 0` and `backoff = some b` are both
supplied, `times ≥ 1`, and every attempt below the budget throws a truthy
value, the full event trace of `retry` shows, after each failing attempt
`i` that is not the last, first the fixed-delay sleep `slept d` and then
additionally `slept (b i)`, before the next invocation. -/
theorem retry_delay_backoff_both_sleep (tr : ε → Bool) (options : RetryOptions)
    (func : Nat → RetryOutcome ε κ) (d : Nat) (b : Nat → Nat)
    (hd : options.delay = some d) (hd0 : d ≠ 0) (hb : options.backoff = some b)
    (ht : 1 ≤ options.times.getD 3)
    (hfail : ∀ i, 1 ≤ i → i < options.times.getD 3 →
      ∃ e, func i = .thrown e ∧ tr e = true) :
    (retry tr options func).1 =
      ((List.range' 1 (options.times.getD 3 - 1)).map
          (fun i => [REvent.call i, REvent.slept d, REvent.slept (b i)])).flatten
        ++ [REvent.call (options.times.getD 3)] := by
  have hreach := retry_reach tr options func (options.times.getD 3) ht (le_refl _) hfail
  have hrest : List.range' (options.times.getD 3)
      (options.times.getD 3 + 1 - options.times.getD 3) = [options.times.getD 3] := by
    have hn : options.times.getD 3 + 1 - options.times.getD 3 = 1 := by omega
    rw [hn, List.range'_one]
  rw [hrest] at hreach
  have hfst := congrArg Prod.fst hreach
  simp only at hfst
  rw [hfst, retryLoop_singleton_fst]
  have hseg : (fun i => REvent.call i ::
        (delaySleeps options.delay ++ backoffSleeps options.backoff i)) =
      (fun i => [REvent.call i, REvent.slept d, REvent.slept (b i)]) := by
    funext i
    simp [hd, hb, delaySleeps, backoffSleeps, truthyNum, hd0]
  rw [hseg]

/-- C7 witness: `times = 3`, `delay = 10`, `backoff = i ↦ 100·i`, always
failing with the truthy value 7: after attempts 1 and 2 both sleeps occur,
in the order fixed-delay then backoff. -/
theorem retry_delay_backoff_both_sleep_witness :
    (retry trNat { times := some 3, delay := some 10, backoff := some (fun i => i * 100) }
        throwSevenF).1 =
      [REvent.call 1, REvent.slept 10, REvent.slept 100,
        REvent.call 2, REvent.slept 10, REvent.slept 200, REvent.call 3] := by
  have h := retry_delay_backoff_both_sleep trNat
    { times := some 3, delay := some 10, backoff := some (fun i => i * 100) }
    throwSevenF 10 (fun i => i * 100) rfl (by decide) rfl (by decide)
    (fun i h1 h2 => ⟨7, rfl, rfl⟩)
  simpa using h

/-- C7 counterexample: `delay` and `backoff` are both supplied, but with
`delay = 0` (a falsy number): after the failing non-final attempt only
the backoff sleep happens; no `slept 0` event for the fixed delay is ever
performed. -/
theorem retry_zero_delay_cex :
    (retry trNat { times := some 2, delay := some 0, backoff := some (fun _ => 5) }
        throwOneF).1 = [REvent.call 1, REvent.slept 5, REvent.call 2] ∧
      REvent.slept 0 ∉
        (retry trNat { times := some 2, delay := some 0, backoff := some (fun _ => 5) }
          throwOneF).1 := by
  decide

/-! ### Helper lemmas about `defer` -/

lemma defer_fst (tr : ε → Bool) (callbacks : List (DeferCallback ε)) (err : Option ε)
    (response : Option κ) :
    (defer tr callbacks err response).1 = (deferLoop tr err callbacks).1 := by
  simp only [defer]
  rcases h2 : (deferLoop tr err callbacks).2 with _ | e
  · rcases err with _ | e2
    · simp
    · by_cases htr : tr e2 = true <;> simp [htr]
  · simp

lemma deferLoop_fst (tr : ε → Bool) (err : Option ε) :
    ∀ callbacks : List (DeferCallback ε),
      (deferLoop tr err callbacks).1 =
        List.range (min (callbacks.findIdx (cbBad tr err) + 1) callbacks.length)
  | [] => by simp [deferLoop]
  | cb :: rest => by
    have ih := deferLoop_fst tr err rest
    cases hfe : cb.fn err with
    | ok =>
      have hbad : cbBad tr err cb = false := by simp [cbBad, hfe]
      have harith : min (rest.findIdx (cbBad tr err) + 1 + 1) (rest.length + 1) =
          min (rest.findIdx (cbBad tr err) + 1) rest.length + 1 := by omega
      simp only [deferLoop, hfe, List.findIdx_cons, hbad, cond_false, List.length_cons,
        ih, harith, List.range_succ_eq_map]
    | threw e =>
      by_cases hcond : (tr e && cb.rethrow) = true
      · have hbad : cbBad tr err cb = true := by simp [cbBad, hfe, hcond]
        have harith : min (0 + 1) (rest.length + 1) = 1 := by omega
        simp [deferLoop, hfe, hcond, List.findIdx_cons, hbad, harith, List.range_succ_eq_map]
      · have hbad : cbBad tr err cb = false := by
          simp only [cbBad, hfe]
          simpa using hcond
        have harith : min (rest.findIdx (cbBad tr err) + 1 + 1) (rest.length + 1) =
            min (rest.findIdx (cbBad tr err) + 1) rest.length + 1 := by omega
        simp only [deferLoop, hfe, if_neg hcond, List.findIdx_cons, hbad, cond_false,
          List.length_cons, ih, harith, List.range_succ_eq_map]

lemma deferLoop_snd_first_bad (tr : ε → Bool) (err : Option ε) (e : ε) :
    ∀ (pre : List (DeferCallback ε)) (cb : DeferCallback ε) (post : List (DeferCallback ε)),
      (∀ c ∈ pre, cbBad tr err c = false) →
      cb.fn err = .threw e → cb.rethrow = true → tr e = true →
      (deferLoop tr err (pre ++ cb :: post)).2 = some e
  | [], cb, post, _, hcb, hrt, htr => by
    simp [deferLoop, hcb, htr, hrt]
  | c :: pre, cb, post, hpre, hcb, hrt, htr => by
    have ih := deferLoop_snd_first_bad tr err e pre cb post
      (fun x hx => hpre x (List.mem_cons_of_mem c hx)) hcb hrt htr
    have hc : cbBad tr err c = false := hpre c (List.mem_cons_self c pre)
    cases hfe : c.fn err with
    | ok => simpa [deferLoop, hfe] using ih
    | threw e2 =>
      have hcond : (tr e2 && c.rethrow) = false := by
        have := hc
        simpa [cbBad, hfe] using this
      simpa [deferLoop, hfe, hcond] using ih

/-! ### Claim theorems about `defer` -/

/-- C2 (amended).  `defer` invokes the registered callbacks in
registration order, but not necessarily all of them: the invoked indices
are exactly `0, …, j` where `j` is the position of the first callback
that both was registered with `rethrow: true` and throws a truthy value
when invoked (all callbacks run when there is no such callback — in
particular, ordinary callback failures never skip later callbacks, but a
truthy `rethrow: true` failure is raised immediately and the remaining
callbacks are skipped). -/
theorem defer_invocations_upto_first_rethrow (tr : ε → Bool)
    (callbacks : List (DeferCallback ε)) (err : Option ε) (response : Option κ) :
    (defer tr callbacks err response).1 =
      List.range (min (callbacks.findIdx (cbBad tr err) + 1) callbacks.length) := by
  rw [defer_fst]
  exact deferLoop_fst tr err callbacks

/-- C2 counterexample: the body succeeds, callback 0 is registered with
`rethrow: true` and fails with a truthy value, callback 1 returns
normally.  Only callback 0 is invoked: callback 1 is skipped because an
earlier callback failed, and the scope raises the failure of callback 0. -/
theorem defer_skips_after_rethrow_cex :
    (defer trNat [cbThrowOneRethrow, cbOk] none (some 7)).1 = [0] ∧
      (defer trNat [cbThrowOneRethrow, cbOk] none (some 7)).2 = .error 1 ∧
      ¬(defer trNat [cbThrowOneRethrow, cbOk] none (some 7)).1 = [0, 1] := by
  decide

/-- C8 (amended: the failure of callback `B` must be a truthy value, and
`B` must be the first rethrow-flagged callback that fails with a truthy
value).  If the callbacks before `B` are not rethrow-flagged truthy
failures, `B` was registered with `rethrow: true` and its invocation
throws the truthy value `e`, then the scope raises `e` — and not the body
failure — whatever the body outcome was. -/
theorem defer_rethrow_overrides_body (tr : ε → Bool) (pre : List (DeferCallback ε))
    (cb : DeferCallback ε) (post : List (DeferCallback ε)) (err : Option ε)
    (response : Option κ) (e : ε)
    (hpre : ∀ c ∈ pre, cbBad tr err c = false)
    (hcb : cb.fn err = .threw e) (hrt : cb.rethrow = true) (htr : tr e = true) :
    (defer tr (pre ++ cb :: post) err response).2 = .error e := by
  have hsnd := deferLoop_snd_first_bad tr err e pre cb post hpre hcb hrt htr
  simp only [defer, hsnd]

/-- C8 witness: the body failed with the truthy value 5; callback `B` at
position 0 is rethrow-flagged and throws the truthy value 1.  The scope
raises 1, not 5. -/
theorem defer_rethrow_overrides_body_witness :
    (defer trNat [cbThrowOneRethrow, cbOk] (some 5) (none : Option Nat)).2 = .error 1 :=
  defer_rethrow_overrides_body trNat [] cbThrowOneRethrow [cbOk] (some 5) none 1
    (fun c hc => absurd hc (by simp)) rfl rfl rfl

/-- C8 counterexample: the body failed with the truthy value 5 and the
only callback is rethrow-flagged but fails with a falsy value (modelled
`0`).  The scope raises the body failure 5, not the callback failure. -/
theorem defer_rethrow_falsy_cex :
    (defer trNat [cbThrowZeroRethrow] (some 5) (none : Option Nat)).2 = .error 5 ∧
      ¬(defer trNat [cbThrowZeroRethrow] (some 5) (none : Option Nat)).2 = .error 0 := by
  decide

/-! ### Claim theorems about `parallel` -/

/-- C1 (amended: an item counts as failing only when its rejection value
is truthy; items rejecting with falsy values are treated as successes and
contribute `undefined` result slots).  For every limit, input and
schedule: if `k ≥ 1` items reject with truthy values, `parallel` raises
an `AggregateError` whose `errors` list holds exactly those `k` values
ordered by the original input index of the failing items; if `k = 0`,
`parallel` returns the per-item result slots (the fulfilment value, or
`undefined` for a falsy rejection) in original input order. -/
theorem parallel_aggregates_truthy_failures (tr : ε → Bool) (limit : Nat)
    (arr : List τ) (func : τ → Except ε κ) (assign : Nat → Nat) (k : Nat)
    (hk : k = (arr.filter (fun a => truthyOpt tr (tryit (func a)).1)).length) :
    (1 ≤ k →
      parallel tr limit arr func assign =
        .error (mkAggregateError
          ((arr.filter (fun a => truthyOpt tr (tryit (func a)).1)).map
            (fun a => (tryit (func a)).1)))) ∧
    (k = 0 →
      parallel tr limit arr func assign = .ok (arr.map (fun a => (tryit (func a)).2))) := by
  constructor
  · intro h1
    rw [parallel_eq_spec, if_pos (by omega)]
  · intro h0
    rw [parallel_eq_spec, if_neg (by omega)]

/-- C1 witness: `parallel(2, [1,2,3], …)` with a worker rejecting odd
inputs: exactly the two failures 10 and 30 are aggregated, in index
order. -/
theorem parallel_aggregates_truthy_failures_witness :
    parallel trNat 2 [1, 2, 3] parOddFail (fun i => i) =
      .error (mkAggregateError [some 10, some 30]) := by
  have h := (parallel_aggregates_truthy_failures trNat 2 [1, 2, 3] parOddFail
    (fun i => i) 2 (by decide)).1 (by decide)
  exact h.trans (by decide)

/-- C1 counterexample: one item fails, but with a falsy rejection value
(modelled `0`).  `parallel` does not raise an `AggregateError` holding
that failure; it returns normally with an `undefined` slot. -/
theorem parallel_falsy_failure_cex :
    parallel trNat 1 [5] (fun _ => (Except.error 0 : Except Nat Nat)) (fun _ => 0) =
        .ok [none] ∧
      parallel trNat 1 [5] (fun _ => (Except.error 0 : Except Nat Nat)) (fun _ => 0) ≠
        .error (mkAggregateError [some 0]) := by
  decide

/-- C6: for `limit ≥ length` (in fact for every limit) and every schedule,
the multiset of worker invocation records is exactly one record per input
item (the permutation statement), and the result of `parallel` is
computed from the per-item outcomes in original input order — output
order equals input order regardless of individual completion timing. -/
theorem parallel_once_per_item_in_order (tr : ε → Bool) (limit : Nat) (arr : List τ)
    (func : τ → Except ε κ) (assign : Nat → Nat) (hlim : arr.length ≤ limit) :
    (parallelFlat limit arr func assign).Perm (arr.enum.map (processItem func)) ∧
      parallel tr limit arr func assign =
        (if 0 < (arr.filter (fun a => truthyOpt tr (tryit (func a)).1)).length then
          .error (mkAggregateError
            ((arr.filter (fun a => truthyOpt tr (tryit (func a)).1)).map
              (fun a => (tryit (func a)).1)))
        else .ok (arr.map (fun a => (tryit (func a)).2))) :=
  ⟨parallelFlat_perm limit arr func assign, parallel_eq_spec tr limit arr func assign⟩

/-- C6 witness: two items, limit 3, a schedule handing all pops to worker
0: every item is processed once and the doubled values come back in input
order. -/
theorem parallel_once_per_item_in_order_witness :
    parallel trNat 3 [10, 20] dblF (fun _ => 0) = .ok [some 20, some 40] := by
  have h := (parallel_once_per_item_in_order trNat 3 [10, 20] dblF (fun _ => 0)
    (by decide)).2
  exact h.trans (by decide)

lemma mapAsync_ok (tr : ε → Bool) (func : τ → Except ε κ) :
    ∀ (arr : List τ) (vals : List κ), mapAsync func arr = .ok vals →
      (arr.filter (fun a => truthyOpt tr (tryit (func a)).1)) = [] ∧
        arr.map (fun a => (tryit (func a)).2) = vals.map some
  | [], vals, h => by
    simp only [mapAsync] at h
    cases h
    simp
  | x :: rest, vals, h => by
    simp only [mapAsync] at h
    cases hfx : func x with
    | error e => rw [hfx] at h; exact absurd h (by simp)
    | ok v =>
      rw [hfx] at h
      cases hrest : mapAsync func rest with
      | error e => rw [hrest] at h; exact absurd h (by simp)
      | ok vs =>
        rw [hrest] at h
        have hv : vals = v :: vs := by
          cases h
          rfl
        subst hv
        have ih := mapAsync_ok tr func rest vs hrest
        refine ⟨?_, ?_⟩
        · have hto : truthyOpt tr (tryit (Except.ok v : Except ε κ)).1 = false := rfl
          simp only [List.filter_cons, hfx, hto]
          simpa using ih.1
        · simp only [List.map_cons, hfx]
          rw [ih.2]
          rfl

/-- C3 (amended: restricted to runs in which the worker fulfils on every
item; when some item rejects, the two differ — `parallel` raises an
`AggregateError` object, a sequential map raises the first rejection
value itself).  For every non-empty input on which the sequential `map`
fulfils with `vals`, `parallel` with `limit = 1` returns exactly those
values, in input order, under every schedule. -/
theorem parallel_limit_one_eq_seq_map_on_success (tr : ε → Bool) (arr : List τ)
    (func : τ → Except ε κ) (assign : Nat → Nat) (vals : List κ)
    (hne : arr ≠ []) (hok : mapAsync func arr = .ok vals) :
    parallel tr 1 arr func assign = .ok (vals.map some) := by
  obtain ⟨hfil, hmap⟩ := mapAsync_ok tr func arr vals hok
  rw [parallel_eq_spec, hfil]
  have h0 : ¬0 < ([] : List τ).length := by simp
  rw [if_neg h0, hmap]

/-- C3 witness: `parallel(1, [1,2,3], x ↦ ok (2·x))` equals the
sequential map output `[2,4,6]`. -/
theorem parallel_limit_one_eq_seq_map_on_success_witness :
    parallel trNat 1 [1, 2, 3] dblF (fun _ => 0) = .ok [some 2, some 4, some 6] := by
  have h := parallel_limit_one_eq_seq_map_on_success trNat [1, 2, 3] dblF (fun _ => 0)
    [2, 4, 6] (by decide) (by decide)
  exact h.trans (by decide)

/-- C3 counterexample: a single item whose worker rejects with the truthy
value 1.  `parallel(1, ·)` raises `AggregateError([1])` while the strictly
sequential map raises the bare value 1 — different raised JavaScript
values, so the results are not the same. -/
theorem parallel_limit_one_not_seq_map_cex :
    parallelOutcome (parallel trNat 1 [5] failOneF (fun _ => 0)) ≠
        seqMapOutcome (mapAsync failOneF [5]) ∧
      parallel trNat 1 [5] failOneF (fun _ => 0) =
        .error (mkAggregateError [some 1]) ∧
      mapAsync failOneF [5] = .error 1 := by
  decide

/-! ### Claim theorems about `all` -/

/-- C9 (amended: an operation counts as failing only when its rejection
value is truthy; falsy rejections are treated as fulfilled with a `null`
result slot).  On both input shapes: if at least one operation rejects
with a truthy value, `all` raises an `AggregateError` holding all the
truthy rejection values in input order; otherwise it returns a container
of the same shape as the input — the sequence of result slots in original
order, resp. the association list with identical keys in entries order —
holding each operation result slot. -/
theorem all_aggregates_truthy_failures (tr : ε → Bool) (ps : List (Except ε κ))
    (rs : List (String × Except ε κ)) :
    (allList tr ps =
      if 0 < (ps.filter (fun p => truthyOpt tr (tryit p).1)).length then
        .error (mkAggregateError
          ((ps.filter (fun p => truthyOpt tr (tryit p).1)).map (fun p => (tryit p).1)))
      else .ok (ps.map (fun p => (tryit p).2))) ∧
    (allRecord tr rs =
      if 0 < (rs.filter (fun kv => truthyOpt tr (tryit kv.2).1)).length then
        .error (mkAggregateError
          ((rs.filter (fun kv => truthyOpt tr (tryit kv.2).1)).map
            (fun kv => (tryit kv.2).1)))
      else .ok (rs.map (fun kv => (kv.1, (tryit kv.2).2)))) := by
  constructor
  · simp only [allList]
    rw [List.filter_map]
    have hpred : ((fun r : SettledResult ε κ => truthyOpt tr r.exc) ∘ settleEntry none) =
        (fun p : Except ε κ => truthyOpt tr (tryit p).1) := by
      funext p
      cases p <;> rfl
    rw [hpred, List.length_map, List.map_map, List.map_map]
    have hexc : ((fun e : SettledResult ε κ => e.exc) ∘ settleEntry none) =
        (fun p : Except ε κ => (tryit p).1) := by
      funext p
      cases p <;> rfl
    have hres : ((fun r : SettledResult ε κ => r.result) ∘ settleEntry none) =
        (fun p : Except ε κ => (tryit p).2) := by
      funext p
      cases p <;> rfl
    rw [hexc, hres]
  · simp only [allRecord]
    rw [List.filter_map]
    have hpred : ((fun r : SettledResult ε κ => truthyOpt tr r.exc) ∘
          (fun kv : String × Except ε κ => settleEntry (some kv.1) kv.2)) =
        (fun kv : String × Except ε κ => truthyOpt tr (tryit kv.2).1) := by
      funext kv
      cases h : kv.2 <;> simp [settleEntry, h, tryit, truthyOpt]
    rw [hpred, List.length_map, List.map_map, List.map_map]
    have hexc : ((fun e : SettledResult ε κ => e.exc) ∘
          (fun kv : String × Except ε κ => settleEntry (some kv.1) kv.2)) =
        (fun kv : String × Except ε κ => (tryit kv.2).1) := by
      funext kv
      cases h : kv.2 <;> simp [settleEntry, h, tryit]
    have hres : ((fun r : SettledResult ε κ => (r.key.getD "", r.result)) ∘
          (fun kv : String × Except ε κ => settleEntry (some kv.1) kv.2)) =
        (fun kv : String × Except ε κ => (kv.1, (tryit kv.2).2)) := by
      funext kv
      cases h : kv.2 <;> simp [settleEntry, h, tryit]
    rw [hexc, hres]

/-- C9 counterexample: a single operation that rejects with a falsy value
(modelled `0`).  `all` does not raise an `AggregateError` holding that
failure; it returns normally with a `null` slot. -/
theorem all_falsy_rejection_cex :
    allList trNat [(Except.error 0 : Except Nat Nat)] = .ok [none] ∧
      allList trNat [(Except.error 0 : Except Nat Nat)] ≠
        .error (mkAggregateError [some 0]) := by
  decide

end Radash
